import Mathlib

/-!
Verification of the AVO (Adversarial Variational Optimization) tuning loop
of `day4-Fri/Pythia-Tune-AVO.ipynb`.

The notebook maintains a Gaussian variational distribution over a scalar
detector offset.  Its learnable state is a mean `detector_params_mean`
and a free variable `detector_params_sigma_raw`; the effective standard
deviation is `detector_params_sigma = softplus(sigma_raw)`.  The per-sample
REINFORCE score is `neg_log_prob`, the scalar objective is
`detector_params_loss = reduce_mean(neg_log_prob * proba)`, minimized by a
TensorFlow `AdamOptimizer(learning_rate=0.02)` step restricted to the two
distribution variables.  Data plumbing goes through `get_data`, which sends
requests to a worker pool, retrieves one completed unit per request, stacks
the results, and in its `finally` clause drains any outstanding requests.
The outer loop pretrains the discriminator once and then runs exactly
`n_iterations = 256` iterations, logging a `(mean, sigma)` snapshot each time.
-/

namespace AvoTune

noncomputable section RealValued

/-- `softplus x = log(1 + exp x)`, the transform `tf.nn.softplus` applied to
`detector_params_sigma_raw` in the notebook to obtain the effective sigma. -/
def softplus (x : ℝ) : ℝ := Real.log (1 + Real.exp x)

/-- The logistic function, derivative of `softplus`. -/
def sigmoid (x : ℝ) : ℝ := Real.exp x / (1 + Real.exp x)

/-- `detector_params_sigma = tf.nn.softplus(detector_params_sigma_raw)`. -/
def detector_params_sigma (sigmaRaw : ℝ) : ℝ := softplus sigmaRaw

/-- Per-sample value of the notebook's `neg_log_prob` tensor for a scalar
detector parameter `θ`:
`reduce_sum(log(sigma)) + reduce_sum(0.5 * (θ - mean)^2 / sigma^2, axis=1)`,
which for the one-dimensional parameter reduces to
`log σ + 0.5 (θ - μ)² / σ²` with `σ = softplus σ'`. -/
def neg_log_prob (mean sigmaRaw θ : ℝ) : ℝ :=
  Real.log (detector_params_sigma sigmaRaw)
    + 0.5 * (θ - mean) ^ 2 / (detector_params_sigma sigmaRaw) ^ 2

/-- The `neg_log_prob` tensor over a batch of parameter values (the
placeholder `detector_params` has shape `(None, 1)`). -/
def neg_log_prob_batch (mean sigmaRaw : ℝ) (thetas : List ℝ) : List ℝ :=
  thetas.map (neg_log_prob mean sigmaRaw)

lemma one_add_exp_pos (x : ℝ) : 0 < 1 + Real.exp x := by
  have := Real.exp_pos x
  linarith

lemma softplus_pos (x : ℝ) : 0 < softplus x := by
  unfold softplus
  have h : (1 : ℝ) < 1 + Real.exp x := by
    have := Real.exp_pos x
    linarith
  exact Real.log_pos h

lemma softplus_strictMono : StrictMono softplus := by
  intro a b hab
  unfold softplus
  apply Real.log_lt_log (one_add_exp_pos a)
  have := Real.exp_lt_exp.mpr hab
  linarith

/-- Claim C3: the effective standard deviation `σ = softplus(σ') = log(1+exp σ')`
is strictly positive for every real `σ'`, and `softplus` is monotonically
increasing. -/
theorem softplus_positive_and_monotone :
    (∀ x : ℝ, 0 < softplus x) ∧ ∀ a b : ℝ, a < b → softplus a < softplus b :=
  ⟨softplus_pos, fun _ _ h => softplus_strictMono h⟩

/-- Witness for C3 at the concrete inputs `σ' = 0` and `σ' = 1`. -/
theorem softplus_positive_and_monotone_witness :
    0 < softplus 0 ∧ softplus 0 < softplus 1 :=
  ⟨softplus_positive_and_monotone.1 0,
   softplus_positive_and_monotone.2 0 1 (by norm_num)⟩

/-- Claim C1: for every batch of parameter values and current state
`(μ, σ')`, the `neg_log_prob` tensor holds, per sample, exactly
`log(σ) + 0.5 (θ - μ)² / σ²` where `σ = softplus(σ')`. -/
theorem neg_log_prob_batch_formula (mean sigmaRaw : ℝ) (thetas : List ℝ)
    (i : ℕ) (θ : ℝ) (hθ : thetas[i]? = some θ) :
    (neg_log_prob_batch mean sigmaRaw thetas)[i]? =
      some (Real.log (softplus sigmaRaw)
        + 0.5 * (θ - mean) ^ 2 / (softplus sigmaRaw) ^ 2) := by
  unfold neg_log_prob_batch
  rw [List.getElem?_map, hθ]
  rfl

/-- Witness for C1 at the concrete batch `[3]` with `μ = 0`, `σ' = 2`. -/
theorem neg_log_prob_batch_formula_witness :
    ([(3 : ℝ)][0]? = some 3) ∧
      (neg_log_prob_batch 0 2 [3])[0]? =
        some (Real.log (softplus 2) + 0.5 * ((3:ℝ) - 0) ^ 2 / (softplus 2) ^ 2) :=
  ⟨rfl, neg_log_prob_batch_formula 0 2 [3] 0 3 rfl⟩

/-- Claim C7: for every state `(μ, σ')` (so for every fixed `σ = softplus σ' > 0`),
the per-sample `neg_log_prob`, as a function of `θ`, is symmetric around `μ`
and attains its minimum at `θ = μ`. -/
theorem neg_log_prob_symmetric_min_at_mean (mean sigmaRaw d θ : ℝ) :
    neg_log_prob mean sigmaRaw (mean + d) = neg_log_prob mean sigmaRaw (mean - d) ∧
      neg_log_prob mean sigmaRaw mean ≤ neg_log_prob mean sigmaRaw θ := by
  constructor
  · unfold neg_log_prob
    ring_nf
  · unfold neg_log_prob
    have hσ : 0 < (detector_params_sigma sigmaRaw) ^ 2 :=
      pow_pos (softplus_pos sigmaRaw) 2
    have h1 : (0:ℝ) ≤ 0.5 * (θ - mean) ^ 2 / (detector_params_sigma sigmaRaw) ^ 2 := by
      apply div_nonneg _ (le_of_lt hσ)
      positivity
    have h0 : 0.5 * (mean - mean) ^ 2 / (detector_params_sigma sigmaRaw) ^ 2 = 0 := by
      simp
    linarith

/-! ### The variational-distribution state and its Adam update

`distribution_opt = tf.train.AdamOptimizer(learning_rate=0.02).minimize(
  detector_params_loss, var_list=[detector_params_mean, detector_params_sigma_raw])`.
TensorFlow 1.x `AdamOptimizer` keeps per-variable slots `m`, `v` (both starting
at `0`) and a step counter, and applies
`lr_t = lr * sqrt(1 - beta2^t) / (1 - beta1^t)`,
`m_t = beta1 * m + (1 - beta1) * g`, `v_t = beta2 * v + (1 - beta2) * g^2`,
`x := x - lr_t * m_t / (sqrt(v_t) + epsilon)` with the default
`beta1 = 0.9`, `beta2 = 0.999`, `epsilon = 1e-8`. -/

/-- Bias-corrected Adam learning rate at step `t` for the notebook's
`learning_rate=0.02` and default betas. -/
def adamLr (t : ℕ) : ℝ := 0.02 * Real.sqrt (1 - 0.999 ^ t) / (1 - 0.9 ^ t)

/-- Adam first-moment slot update. -/
def adamM (m g : ℝ) : ℝ := 0.9 * m + (1 - 0.9) * g

/-- Adam second-moment slot update. -/
def adamV (v g : ℝ) : ℝ := 0.999 * v + (1 - 0.999) * g ^ 2

/-- One Adam assignment to a variable holding `x`, with incoming slots
`m`, `v`, gradient `g`, at step `t`. -/
def adamStep (t : ℕ) (m v x g : ℝ) : ℝ :=
  x - adamLr t * adamM m g / (Real.sqrt (adamV v g) + 1e-8)

/-- The mutable session state relevant to the variational update:
the two distribution variables, their Adam optimizer slots, the Adam step
counter, and (abstractly, of type `D`) the discriminator's weights. -/
structure AvoState (D : Type) where
  mean : ℝ
  sigmaRaw : ℝ
  adamT : ℕ
  mMean : ℝ
  vMean : ℝ
  mSigma : ℝ
  vSigma : ℝ
  disc : D

/-- The scalar objective
`detector_params_loss = tf.reduce_mean(neg_log_prob * proba)`, over a batch
of parameter values `thetas` paired with discriminator outputs `probas`. -/
def detector_params_loss (mean sigmaRaw : ℝ) (thetas probas : List ℝ) : ℝ :=
  ((thetas.zip probas).map (fun p => neg_log_prob mean sigmaRaw p.1 * p.2)).sum
    / ((thetas.zip probas).length : ℝ)

/-- Gradient of `detector_params_loss` in the `mean` variable, as TensorFlow's
reverse-mode differentiation produces it (proved to be the derivative in the
claim C2 theorem below). -/
def gradMean (mean sigmaRaw : ℝ) (thetas probas : List ℝ) : ℝ :=
  ((thetas.zip probas).map (fun p => (mean - p.1) / softplus sigmaRaw ^ 2 * p.2)).sum
    / ((thetas.zip probas).length : ℝ)

/-- Gradient of `detector_params_loss` in the `sigmaRaw` variable (proved to be
the derivative in the claim C2 theorem below). -/
def gradSigmaRaw (mean sigmaRaw : ℝ) (thetas probas : List ℝ) : ℝ :=
  ((thetas.zip probas).map (fun p =>
      (sigmoid sigmaRaw / softplus sigmaRaw
        - (p.1 - mean) ^ 2 * sigmoid sigmaRaw / softplus sigmaRaw ^ 3) * p.2)).sum
    / ((thetas.zip probas).length : ℝ)

/-- One run of `distribution_opt` (the `train_generator` session call):
a single Adam step on `detector_params_mean` and `detector_params_sigma_raw`
for the loss gradients, updating the two variables and their optimizer slots
and nothing else. -/
def distribution_update {D : Type} (st : AvoState D) (thetas probas : List ℝ) :
    AvoState D :=
  { st with
    mean := adamStep (st.adamT + 1) st.mMean st.vMean st.mean
      (gradMean st.mean st.sigmaRaw thetas probas)
    sigmaRaw := adamStep (st.adamT + 1) st.mSigma st.vSigma st.sigmaRaw
      (gradSigmaRaw st.mean st.sigmaRaw thetas probas)
    adamT := st.adamT + 1
    mMean := adamM st.mMean (gradMean st.mean st.sigmaRaw thetas probas)
    vMean := adamV st.vMean (gradMean st.mean st.sigmaRaw thetas probas)
    mSigma := adamM st.mSigma (gradSigmaRaw st.mean st.sigmaRaw thetas probas)
    vSigma := adamV st.vSigma (gradSigmaRaw st.mean st.sigmaRaw thetas probas) }

/-- The state set by the notebook's variable declarations and
`tf.global_variables_initializer()`: `detector_params_mean` starts at `0.0`,
`detector_params_sigma_raw` at `2.0`, the Adam slots at zero. -/
def initState : AvoState Unit :=
  { mean := 0
    sigmaRaw := 2
    adamT := 0
    mMean := 0
    vMean := 0
    mSigma := 0
    vSigma := 0
    disc := () }

lemma distribution_update_mean {D : Type} (st : AvoState D) (thetas probas : List ℝ) :
    (distribution_update st thetas probas).mean =
      adamStep (st.adamT + 1) st.mMean st.vMean st.mean
        (gradMean st.mean st.sigmaRaw thetas probas) := rfl

lemma distribution_update_sigmaRaw {D : Type} (st : AvoState D) (thetas probas : List ℝ) :
    (distribution_update st thetas probas).sigmaRaw =
      adamStep (st.adamT + 1) st.mSigma st.vSigma st.sigmaRaw
        (gradSigmaRaw st.mean st.sigmaRaw thetas probas) := rfl

/-- Claim C9: the variational-distribution update mutates only the
distribution's variables and their optimizer slots; the discriminator's
weights are untouched, the reward entering the loss only as a plain
numeric batch. -/
theorem distribution_update_preserves_discriminator {D : Type}
    (st : AvoState D) (thetas probas : List ℝ) :
    (distribution_update st thetas probas).disc = st.disc := rfl

lemma gradMean_zero_rewards (mean sigmaRaw : ℝ) (thetas probas : List ℝ)
    (hr : ∀ r ∈ probas, r = 0) : gradMean mean sigmaRaw thetas probas = 0 := by
  unfold gradMean
  rw [List.sum_eq_zero, zero_div]
  intro x hx
  rcases List.mem_map.mp hx with ⟨p, hp, hpx⟩
  have h2 : p.2 = 0 := hr p.2 (List.of_mem_zip hp).2
  rw [← hpx, h2, mul_zero]

lemma gradSigmaRaw_zero_rewards (mean sigmaRaw : ℝ) (thetas probas : List ℝ)
    (hr : ∀ r ∈ probas, r = 0) : gradSigmaRaw mean sigmaRaw thetas probas = 0 := by
  unfold gradSigmaRaw
  rw [List.sum_eq_zero, zero_div]
  intro x hx
  rcases List.mem_map.mp hx with ⟨p, hp, hpx⟩
  have h2 : p.2 = 0 := hr p.2 (List.of_mem_zip hp).2
  rw [← hpx, h2, mul_zero]

lemma adamStep_zero_slots_zero_grad (t : ℕ) (x : ℝ) :
    adamStep t 0 0 x 0 = x := by
  unfold adamStep adamM
  norm_num

/-- Claim C4 (amended): with a uniformly-zero reward batch the loss gradient
in both variables is zero, and from zeroed Adam slots (the state produced by
the variables' initial assignment) the update leaves `(μ, σ')` unchanged.
With nonzero accumulated Adam momentum the parameters can still move; see the
counterexample theorem. -/
theorem update_zero_reward_zero_gradient {D : Type} (st : AvoState D)
    (thetas probas : List ℝ)
    (hm : st.mMean = 0) (hv : st.vMean = 0)
    (hms : st.mSigma = 0) (hvs : st.vSigma = 0)
    (hr : ∀ r ∈ probas, r = 0) :
    gradMean st.mean st.sigmaRaw thetas probas = 0 ∧
    gradSigmaRaw st.mean st.sigmaRaw thetas probas = 0 ∧
    (distribution_update st thetas probas).mean = st.mean ∧
    (distribution_update st thetas probas).sigmaRaw = st.sigmaRaw := by
  have hg1 := gradMean_zero_rewards st.mean st.sigmaRaw thetas probas hr
  have hg2 := gradSigmaRaw_zero_rewards st.mean st.sigmaRaw thetas probas hr
  refine ⟨hg1, hg2, ?_, ?_⟩
  · rw [distribution_update_mean, hg1, hm, hv, adamStep_zero_slots_zero_grad]
  · rw [distribution_update_sigmaRaw, hg2, hms, hvs, adamStep_zero_slots_zero_grad]

/-- Witness for the amended C4 at the initial state with batch `θ = [1]`,
reward `[0]`. -/
theorem update_zero_reward_zero_gradient_witness :
    (∀ r ∈ ([0] : List ℝ), r = 0) ∧
      (distribution_update initState [1] [0]).mean = initState.mean ∧
      (distribution_update initState [1] [0]).sigmaRaw = initState.sigmaRaw := by
  have h := update_zero_reward_zero_gradient initState [1] [0]
    rfl rfl rfl rfl (by simp)
  exact ⟨by simp, h.2.2.1, h.2.2.2⟩

/-- Counterexample to claim C4 as stated: after one ordinary update (batch
`θ = [1]`, reward `[1]`) the Adam slots hold nonzero momentum, and a second
update whose reward batch is uniformly `0` still changes `μ`, because
TensorFlow's Adam keeps moving a variable along its first-moment estimate
even at zero gradient. -/
theorem update_zero_reward_changes_mean :
    (distribution_update (distribution_update initState [1] [1]) [0] [0]).mean
      ≠ (distribution_update initState [1] [1]).mean := by
  set st1 := distribution_update initState [1] [1] with hst1
  rw [distribution_update_mean]
  have hg0 : gradMean st1.mean st1.sigmaRaw [0] [0] = 0 :=
    gradMean_zero_rewards _ _ _ _ (by simp)
  rw [hg0]
  have hsp : 0 < softplus 2 := softplus_pos 2
  have hg1 : gradMean 0 2 [1] [1] < 0 := by
    have hval : gradMean 0 2 [1] [1] = -(1 / softplus 2 ^ 2) := by
      unfold gradMean
      simp [List.zip]
      ring
    rw [hval]
    have h1 : 0 < 1 / softplus 2 ^ 2 := by positivity
    linarith
  have hm1 : st1.mMean = adamM 0 (gradMean 0 2 [1] [1]) := rfl
  have hM : adamM st1.mMean 0 < 0 := by
    rw [hm1]
    unfold adamM
    nlinarith [hg1]
  have ht : st1.adamT = 1 := rfl
  have hlr : 0 < adamLr (st1.adamT + 1) := by
    rw [ht]
    unfold adamLr
    have h4 : 0 < Real.sqrt (1 - 0.999 ^ 2) := Real.sqrt_pos.mpr (by norm_num)
    have h3 : (0:ℝ) < 1 - 0.9 ^ 2 := by norm_num
    exact div_pos (mul_pos (by norm_num) h4) h3
  have hden : 0 < Real.sqrt (adamV st1.vMean 0) + 1e-8 := by
    have := Real.sqrt_nonneg (adamV st1.vMean 0)
    norm_num
    linarith
  have hE : adamLr (st1.adamT + 1) * adamM st1.mMean 0
      / (Real.sqrt (adamV st1.vMean 0) + 1e-8) < 0 :=
    div_neg_of_neg_of_pos (mul_neg_of_pos_of_neg hlr hM) hden
  unfold adamStep
  intro h
  have := sub_eq_self.mp h
  linarith

lemma exp_two_bounds : (7.389056 : ℝ) < Real.exp 2 ∧ Real.exp 2 < 7.389057 := by
  have he2 : Real.exp 2 = Real.exp 1 * Real.exp 1 := by
    rw [← Real.exp_add]
    norm_num
  constructor
  · rw [he2]
    nlinarith [Real.exp_one_gt_d9]
  · rw [he2]
    nlinarith [Real.exp_one_lt_d9, Real.exp_pos 1]

/-- Claim C10: before any update step the distribution variables hold
`μ = 0.0` and `σ' = 2.0`, so the initial effective standard deviation is
`σ = softplus 2 = log(1 + e²) ≈ 2.13` (bounded here between 2.12 and 2.14). -/
theorem initial_distribution_state :
    initState.mean = 0 ∧ initState.sigmaRaw = 2 ∧
      detector_params_sigma initState.sigmaRaw = Real.log (1 + Real.exp 2) ∧
      2.12 < detector_params_sigma initState.sigmaRaw ∧
      detector_params_sigma initState.sigmaRaw < 2.14 := by
  have hpos : (0:ℝ) < 1 + Real.exp 2 := one_add_exp_pos 2
  obtain ⟨hlo, hhi⟩ := exp_two_bounds
  refine ⟨rfl, rfl, rfl, ?_, ?_⟩
  · show (2.12:ℝ) < softplus 2
    unfold softplus
    rw [Real.lt_log_iff_exp_lt hpos]
    have hsplit : (2.12:ℝ) = 2 + 0.06 + 0.06 := by norm_num
    rw [hsplit, Real.exp_add, Real.exp_add]
    have hp := Real.exp_pos (0.06:ℝ)
    have h06 : Real.exp 0.06 < 1 / 0.94 := by
      have h := Real.add_one_lt_exp (by norm_num : (-0.06:ℝ) ≠ 0)
      rw [show ((-0.06:ℝ) + 1) = 0.94 by norm_num, Real.exp_neg] at h
      have h3 := mul_lt_mul_of_pos_right h hp
      rw [inv_mul_cancel₀ (ne_of_gt hp)] at h3
      rw [lt_div_iff₀ (by norm_num : (0:ℝ) < 0.94)]
      linarith
    have h1 : Real.exp 2 * Real.exp 0.06 < 7.389057 * (1 / 0.94) :=
      mul_lt_mul'' hhi h06 (le_of_lt (Real.exp_pos 2)) (le_of_lt hp)
    have h2 : Real.exp 2 * Real.exp 0.06 * Real.exp 0.06
        < 7.389057 * (1 / 0.94) * (1 / 0.94) :=
      mul_lt_mul'' h1 h06 (by positivity) (le_of_lt hp)
    linarith
  · show softplus 2 < (2.14:ℝ)
    unfold softplus
    rw [Real.log_lt_iff_lt_exp hpos]
    have hsplit : (2.14:ℝ) = 2 + 0.14 := by norm_num
    rw [hsplit, Real.exp_add]
    have h14 : (1.14:ℝ) < Real.exp 0.14 := by
      have h := Real.add_one_lt_exp (by norm_num : (0.14:ℝ) ≠ 0)
      linarith
    nlinarith [Real.exp_pos (2:ℝ)]

lemma hasDerivAt_softplus (x : ℝ) : HasDerivAt softplus (sigmoid x) x := by
  have h1 : HasDerivAt (fun y : ℝ => 1 + Real.exp y) (Real.exp x) x :=
    (Real.hasDerivAt_exp x).const_add 1
  exact h1.log (ne_of_gt (one_add_exp_pos x))

lemma hasDerivAt_list_sum {α : Type} (l : List α) (F : α → ℝ → ℝ) (F' : α → ℝ)
    (x : ℝ) (h : ∀ a ∈ l, HasDerivAt (F a) (F' a) x) :
    HasDerivAt (fun y => (l.map (fun a => F a y)).sum) ((l.map F').sum) x := by
  induction l with
  | nil => simpa using hasDerivAt_const x (0:ℝ)
  | cons a t ih =>
      simp only [List.map_cons, List.sum_cons]
      exact (h a (List.mem_cons_self a t)).add
        (ih fun b hb => h b (List.mem_cons_of_mem a hb))

lemma hasDerivAt_term_mean (sigmaRaw θ r x : ℝ) :
    HasDerivAt (fun m => neg_log_prob m sigmaRaw θ * r)
      ((x - θ) / softplus sigmaRaw ^ 2 * r) x := by
  have h4 := (((((hasDerivAt_id x).const_sub θ).pow 2).const_mul
      (0.5:ℝ)).div_const (softplus sigmaRaw ^ 2)).const_add
      (Real.log (softplus sigmaRaw)) |>.mul_const r
  simp only [neg_log_prob, detector_params_sigma]
  convert h4 using 1
  simp only [id_eq]
  push_cast
  ring

lemma hasDerivAt_term_sigma (mean θ r x : ℝ) :
    HasDerivAt (fun s => neg_log_prob mean s θ * r)
      ((sigmoid x / softplus x
        - (θ - mean) ^ 2 * sigmoid x / softplus x ^ 3) * r) x := by
  have hsp := softplus_pos x
  have h1 := hasDerivAt_softplus x
  have hlog := h1.log (ne_of_gt hsp)
  have hdiv := (hasDerivAt_const x (0.5 * (θ - mean) ^ 2)).div (h1.pow 2)
    (ne_of_gt (pow_pos hsp 2))
  have h4 := (hlog.add hdiv).mul_const r
  simp only [neg_log_prob, detector_params_sigma]
  convert h4 using 1
  have hne : softplus x ≠ 0 := ne_of_gt hsp
  field_simp
  ring

lemma hasDerivAt_loss_mean (mean sigmaRaw : ℝ) (thetas probas : List ℝ) :
    HasDerivAt (fun m => detector_params_loss m sigmaRaw thetas probas)
      (gradMean mean sigmaRaw thetas probas) mean := by
  unfold detector_params_loss gradMean
  exact HasDerivAt.div_const
    (hasDerivAt_list_sum (thetas.zip probas)
      (fun p m => neg_log_prob m sigmaRaw p.1 * p.2)
      (fun p => (mean - p.1) / softplus sigmaRaw ^ 2 * p.2) mean
      (fun p _ => hasDerivAt_term_mean sigmaRaw p.1 p.2 mean)) _

lemma hasDerivAt_loss_sigma (mean sigmaRaw : ℝ) (thetas probas : List ℝ) :
    HasDerivAt (fun s => detector_params_loss mean s thetas probas)
      (gradSigmaRaw mean sigmaRaw thetas probas) sigmaRaw := by
  unfold detector_params_loss gradSigmaRaw
  exact HasDerivAt.div_const
    (hasDerivAt_list_sum (thetas.zip probas)
      (fun p s => neg_log_prob mean s p.1 * p.2)
      (fun p => (sigmoid sigmaRaw / softplus sigmaRaw
        - (p.1 - mean) ^ 2 * sigmoid sigmaRaw / softplus sigmaRaw ^ 3) * p.2)
      sigmaRaw
      (fun p _ => hasDerivAt_term_sigma mean p.1 p.2 sigmaRaw)) _

/-- Claim C2: one call of the variational update minimizes the scalar loss
`mean(neg_log_prob(θ) * reward)` — the quantities it feeds to the optimizer
are exactly the derivatives of `detector_params_loss` in `μ` and in `σ'` at
the current state — and it performs exactly one fixed-learning-rate Adam
step on the two variables `(μ, σ')`, advancing the Adam step counter once
and touching nothing else (in particular not the discriminator weights). -/
theorem distribution_update_one_adam_step_on_loss {D : Type} (st : AvoState D)
    (thetas probas : List ℝ) :
    HasDerivAt (fun m => detector_params_loss m st.sigmaRaw thetas probas)
      (gradMean st.mean st.sigmaRaw thetas probas) st.mean ∧
    HasDerivAt (fun s => detector_params_loss st.mean s thetas probas)
      (gradSigmaRaw st.mean st.sigmaRaw thetas probas) st.sigmaRaw ∧
    (distribution_update st thetas probas).mean =
      adamStep (st.adamT + 1) st.mMean st.vMean st.mean
        (gradMean st.mean st.sigmaRaw thetas probas) ∧
    (distribution_update st thetas probas).sigmaRaw =
      adamStep (st.adamT + 1) st.mSigma st.vSigma st.sigmaRaw
        (gradSigmaRaw st.mean st.sigmaRaw thetas probas) ∧
    (distribution_update st thetas probas).adamT = st.adamT + 1 ∧
    (distribution_update st thetas probas).disc = st.disc :=
  ⟨hasDerivAt_loss_mean st.mean st.sigmaRaw thetas probas,
   hasDerivAt_loss_sigma st.mean st.sigmaRaw thetas probas,
   rfl, rfl, rfl, rfl⟩

/-! ### The training orchestrator

The outer loop of the notebook: one pretraining `train_discriminator` call,
then `for i in range(n_iterations)` with `n_iterations = 256`, each iteration
running `train_discriminator` (mutating only the discriminator weights),
then `train_generator()` (one `distribution_opt` step on a freshly sampled
batch), then appending the `get_distribution_params()` snapshot to the two
history arrays.  The discriminator fits are abstracted as a function on the
weights, and each iteration's sampled batch and discriminator scores as an
iteration-indexed pair of lists. -/

/-- `n_iterations = 256`. -/
def n_iterations : ℕ := 256

/-- `get_distribution_params = lambda: tf_session.run([detector_params_mean,
detector_params_sigma])`. -/
def get_distribution_params {D : Type} (st : AvoState D) : ℝ × ℝ :=
  (st.mean, detector_params_sigma st.sigmaRaw)

/-- One outer iteration: the `train_discriminator` call mutates the
discriminator weights by `fit i`, then `train_generator()` performs the
distribution update on the iteration's batch `(data i).1` with rewards
`(data i).2`. -/
def avo_iteration {D : Type} (fit : ℕ → D → D) (data : ℕ → List ℝ × List ℝ)
    (i : ℕ) (st : AvoState D) : AvoState D :=
  distribution_update { st with disc := fit i st.disc } (data i).1 (data i).2

/-- The session state after running iterations `i, i+1, …, i+j-1`. -/
def avo_iter_from {D : Type} (fit : ℕ → D → D) (data : ℕ → List ℝ × List ℝ) :
    ℕ → ℕ → AvoState D → AvoState D
  | _, 0, st => st
  | i, j + 1, st => avo_iter_from fit data (i + 1) j (avo_iteration fit data i st)

/-- The session state after the first `j` outer iterations. -/
def avo_state_after {D : Type} (fit : ℕ → D → D) (data : ℕ → List ℝ × List ℝ)
    (j : ℕ) (st : AvoState D) : AvoState D :=
  avo_iter_from fit data 0 j st

/-- The `for i in range(k)` loop body starting at iteration index `i`:
runs the iteration, then records the `(μ, σ)` snapshot, returning the final
state and the ordered snapshot log (the contents of
`generator_mean_history` / `generator_sigma_history`). -/
def avo_loop {D : Type} (fit : ℕ → D → D) (data : ℕ → List ℝ × List ℝ) :
    ℕ → ℕ → AvoState D → AvoState D × List (ℝ × ℝ)
  | 0, _, st => (st, [])
  | k + 1, i, st =>
      let st1 := avo_iteration fit data i st
      let rest := avo_loop fit data k (i + 1) st1
      (rest.1, get_distribution_params st1 :: rest.2)

/-- The whole run: pretraining fit once, then the 256-iteration loop. -/
def avo_run {D : Type} (pretrainFit : D → D) (fit : ℕ → D → D)
    (data : ℕ → List ℝ × List ℝ) (st : AvoState D) :
    AvoState D × List (ℝ × ℝ) :=
  avo_loop fit data n_iterations 0 { st with disc := pretrainFit st.disc }

/-- The observable calls of the orchestrator, in program order. -/
inductive AvoEvent where
  | discriminatorFit
  | distributionUpdate
  | snapshotAppend
deriving DecidableEq

/-- Calls made by one outer iteration, in order. -/
def iteration_events : List AvoEvent :=
  [AvoEvent.discriminatorFit, AvoEvent.distributionUpdate, AvoEvent.snapshotAppend]

/-- Calls made by the whole run: the pretraining fit, then the 256
iterations. -/
def run_events : List AvoEvent :=
  AvoEvent.discriminatorFit :: (List.replicate n_iterations iteration_events).flatten

lemma count_flatten_replicate {α : Type} [DecidableEq α] (n : ℕ) (l : List α) (a : α) :
    ((List.replicate n l).flatten.count a) = n * l.count a := by
  induction n with
  | zero => simp
  | succ n ih =>
      rw [List.replicate_succ, List.flatten_cons, List.count_append, ih]
      ring

lemma avo_loop_length {D : Type} (fit : ℕ → D → D) (data : ℕ → List ℝ × List ℝ) :
    ∀ (k i : ℕ) (st : AvoState D), ((avo_loop fit data k i st).2).length = k := by
  intro k
  induction k with
  | zero => intro i st; rfl
  | succ k ih => intro i st; simp [avo_loop, ih]

lemma avo_loop_get {D : Type} (fit : ℕ → D → D) (data : ℕ → List ℝ × List ℝ) :
    ∀ (k j i : ℕ) (st : AvoState D), j < k →
      ((avo_loop fit data k i st).2)[j]? =
        some (get_distribution_params (avo_iter_from fit data i (j + 1) st)) := by
  intro k
  induction k with
  | zero => intro j i st h; omega
  | succ k ih =>
      intro j i st h
      cases j with
      | zero => simp [avo_loop, avo_iter_from]
      | succ j =>
          have hj : j < k := by omega
          simp only [avo_loop, List.getElem?_cons_succ]
          rw [ih j (i + 1) (avo_iteration fit data i st) hj]
          rfl

/-- Claim C8: the orchestrator runs the pretraining fit exactly once, then
exactly `n_iterations = 256` outer iterations unconditionally; each
iteration performs one discriminator fit, then one distribution update,
then appends exactly one `(μ, σ)` snapshot, so for every choice of
discriminator behaviour and sampled batches the log holds exactly 256
snapshots, the `j`-th being the distribution state right after iteration
`j`. -/
theorem avo_orchestrator_schedule {D : Type} (pretrainFit : D → D)
    (fit : ℕ → D → D) (data : ℕ → List ℝ × List ℝ) (st : AvoState D) :
    n_iterations = 256 ∧
    run_events.count AvoEvent.discriminatorFit = 1 + n_iterations ∧
    run_events.count AvoEvent.distributionUpdate = n_iterations ∧
    run_events.count AvoEvent.snapshotAppend = n_iterations ∧
    ((avo_run pretrainFit fit data st).2).length = n_iterations ∧
    ∀ j, j < n_iterations →
      ((avo_run pretrainFit fit data st).2)[j]? =
        some (get_distribution_params
          (avo_state_after fit data (j + 1) { st with disc := pretrainFit st.disc })) := by
  refine ⟨rfl, ?_, ?_, ?_, avo_loop_length fit data n_iterations 0 _, ?_⟩
  · rw [run_events, List.count_cons, count_flatten_replicate]
    decide
  · rw [run_events, List.count_cons, count_flatten_replicate]
    decide
  · rw [run_events, List.count_cons, count_flatten_replicate]
    decide
  · intro j hj
    exact avo_loop_get fit data n_iterations j 0 _ hj

/-- Witness for C8 with a trivial discriminator and empty batches, at
snapshot index 0. -/
theorem avo_orchestrator_schedule_witness :
    (0 < n_iterations) ∧
      ((avo_run id (fun _ d => d) (fun _ => ([], [])) initState).2)[0]? =
        some (get_distribution_params
          (avo_state_after (fun _ d => d) (fun _ => ([], []))
            1 { initState with disc := id initState.disc })) :=
  ⟨by norm_num [n_iterations],
   (avo_orchestrator_schedule id (fun _ d => d) (fun _ => ([], [])) initState).2.2.2.2.2
     0 (by norm_num [n_iterations])⟩

end RealValued

/-! ### The `get_data` sample-generation pipeline

`get_data` sends one `mill.request` per configuration, performs
`len(detector_configurations)` calls to `mill.retrieve()` (each completing
one outstanding unit, in an order the worker pool chooses), then stacks the
units: `np.vstack` of the sample batches, and for the parameter array one
copy of the unit's θ per sample row.  Its `finally` clause runs
`while mill.n_requests > 0: mill.retrieve()`.  The pool's choice of
completion order is modelled by the list `retrieved`, a permutation of the
submitted configurations. -/

/-- Parameter rows returned by `get_data`:
`np.vstack([np.array([params] * samples.shape[0]) for params, samples in data])` —
each retrieved unit contributes its θ once per sample row. -/
def get_data_params {Θ Img : Type} (sim : Θ → List Img) (retrieved : List Θ) :
    List Θ :=
  retrieved.flatMap fun θ => List.replicate (sim θ).length θ

/-- Sample rows returned by `get_data`:
`np.vstack([samples for params, samples in data])`. -/
def get_data_samples {Θ Img : Type} (sim : Θ → List Img) (retrieved : List Θ) :
    List Img :=
  retrieved.flatMap sim

/-- The retrieved units flattened to (θ, image) rows, keeping each image with
the configuration that produced it. -/
def get_data_pairs {Θ Img : Type} (sim : Θ → List Img) (retrieved : List Θ) :
    List (Θ × Img) :=
  retrieved.flatMap fun θ => (sim θ).map fun img => (θ, img)

/-- The submission loop `for args in detector_configurations:
mill.request(*args)`: each request adds one outstanding unit to the pool. -/
def submit_all {Θ : Type} (configs : List Θ) (n : ℕ) : ℕ :=
  configs.foldl (fun acc _ => acc + 1) n

/-- Number of `mill.retrieve()` calls of the main phase:
one per element of `range(len(detector_configurations))`. -/
def get_data_main_retrieves {Θ : Type} (configs : List Θ) : ℕ :=
  (List.range configs.length).length

/-- The `finally` drain `while mill.n_requests > 0: mill.retrieve()` run on
`n` outstanding units: returns (number of retrieve calls made, outstanding
units left). -/
def drainRun : ℕ → ℕ × ℕ
  | 0 => (0, 0)
  | n + 1 => ((drainRun n).1 + 1, (drainRun n).2)

lemma submit_all_eq {Θ : Type} (configs : List Θ) (n : ℕ) :
    submit_all configs n = n + configs.length := by
  induction configs generalizing n with
  | nil => simp [submit_all]
  | cons c t ih =>
      show submit_all t (n + 1) = n + (t.length + 1)
      rw [ih]
      omega

lemma drainRun_eq (n : ℕ) : drainRun n = (n, 0) := by
  induction n with
  | zero => rfl
  | succ n ih => simp [drainRun, ih]

/-- Claim C5: for `k` submitted configurations, `get_data`'s main phase
performs exactly `k` retrieves, and the retrieved θ multiset equals the
submitted multiset; if the main phase stops after only `j ≤ k` retrieves,
the `finally` drain still issues the remaining `k − j` retrieves, after
which the pool holds no outstanding requests (and on success, when `j = k`,
the drain issues none). -/
theorem get_data_retrieve_and_drain_contract {Θ : Type}
    (configs retrieved : List Θ) (j : ℕ)
    (hperm : retrieved.Perm configs) (hj : j ≤ configs.length) :
    get_data_main_retrieves configs = configs.length ∧
    (↑retrieved : Multiset Θ) = ↑configs ∧
    (drainRun (submit_all configs 0 - j)).1 = configs.length - j ∧
    (drainRun (submit_all configs 0 - j)).2 = 0 ∧
    (drainRun (submit_all configs 0 - configs.length)).1 = 0 := by
  refine ⟨by simp [get_data_main_retrieves], Multiset.coe_eq_coe.mpr hperm, ?_, ?_, ?_⟩
  · rw [submit_all_eq, drainRun_eq]
    omega
  · rw [submit_all_eq, drainRun_eq]
  · rw [submit_all_eq, drainRun_eq]
    omega

/-- Witness for C5: two configurations retrieved in swapped order, with an
early exit after one retrieve. -/
theorem get_data_retrieve_and_drain_contract_witness :
    (([7, 5] : List ℕ).Perm [5, 7] ∧ 1 ≤ ([5, 7] : List ℕ).length) ∧
      (↑([7, 5] : List ℕ) : Multiset ℕ) = ↑([5, 7] : List ℕ) ∧
      (drainRun (submit_all ([5, 7] : List ℕ) 0 - 1)).1 = ([5, 7] : List ℕ).length - 1 ∧
      (drainRun (submit_all ([5, 7] : List ℕ) 0 - 1)).2 = 0 := by
  have h := get_data_retrieve_and_drain_contract ([5, 7] : List ℕ) [7, 5] 1
    (by decide) (by decide)
  exact ⟨⟨by decide, by decide⟩, h.2.1, h.2.2.1, h.2.2.2.1⟩

lemma zip_replicate_self {Θ Img : Type} (θ : Θ) (xs : List Img) :
    (List.replicate xs.length θ).zip xs = xs.map fun img => (θ, img) := by
  induction xs with
  | nil => rfl
  | cons x t ih => simp [List.replicate_succ, ih]

lemma get_data_params_length {Θ Img : Type} (sim : Θ → List Img)
    (retrieved : List Θ) :
    (get_data_params sim retrieved).length =
      (retrieved.map fun θ => (sim θ).length).sum := by
  induction retrieved with
  | nil => rfl
  | cons θ t ih => simp [get_data_params, ih, Function.comp_def]

lemma get_data_samples_length {Θ Img : Type} (sim : Θ → List Img)
    (retrieved : List Θ) :
    (get_data_samples sim retrieved).length =
      (retrieved.map fun θ => (sim θ).length).sum := by
  induction retrieved with
  | nil => rfl
  | cons θ t ih => simp [get_data_samples, ih, Function.comp_def]

lemma get_data_zip_eq_pairs {Θ Img : Type} (sim : Θ → List Img)
    (retrieved : List Θ) :
    (get_data_params sim retrieved).zip (get_data_samples sim retrieved) =
      get_data_pairs sim retrieved := by
  induction retrieved with
  | nil => rfl
  | cons θ t ih =>
      simp only [get_data_params, get_data_samples, get_data_pairs,
        List.flatMap_cons] at *
      rw [List.zip_append (by simp), zip_replicate_self, ih]

/-- Claim C6: the params and samples arrays returned by `get_data` have equal
first dimension, each retrieved unit contributing one params row per image
(`batch_size = 8` images per configuration, `8·k` rows in total), and each
row's θ is the configuration that produced that row's image, whatever
completion order the pool chose. -/
theorem get_data_row_alignment {Θ Img : Type} (sim : Θ → List Img)
    (configs retrieved : List Θ) (hperm : retrieved.Perm configs)
    (hb : ∀ θ : Θ, (sim θ).length = 8) :
    (get_data_params sim retrieved).length = (get_data_samples sim retrieved).length ∧
    (get_data_samples sim retrieved).length = 8 * configs.length ∧
    (get_data_params sim retrieved).zip (get_data_samples sim retrieved) =
      get_data_pairs sim retrieved := by
  refine ⟨?_, ?_, get_data_zip_eq_pairs sim retrieved⟩
  · rw [get_data_params_length, get_data_samples_length]
  · rw [get_data_samples_length]
    simp only [hb]
    rw [List.map_const', List.sum_replicate, smul_eq_mul, hperm.length_eq, mul_comm]

/-- Witness for C6: two configurations retrieved in swapped order under a
simulator producing 8 images per unit. -/
theorem get_data_row_alignment_witness :
    (([7, 5] : List ℕ).Perm [5, 7] ∧
      ∀ θ : ℕ, ((fun θ => List.replicate 8 θ) θ).length = 8) ∧
      (get_data_samples (fun θ => List.replicate 8 θ) ([7, 5] : List ℕ)).length =
        8 * ([5, 7] : List ℕ).length ∧
      (get_data_params (fun θ => List.replicate 8 θ) ([7, 5] : List ℕ)).zip
          (get_data_samples (fun θ => List.replicate 8 θ) [7, 5]) =
        get_data_pairs (fun θ => List.replicate 8 θ) [7, 5] := by
  have h := get_data_row_alignment (fun θ : ℕ => List.replicate 8 θ)
    ([5, 7] : List ℕ) [7, 5] (by decide) (fun _ => rfl)
  exact ⟨⟨by decide, fun _ => rfl⟩, h.2.1, h.2.2⟩

end AvoTune
